import Mathlib

/-!
Verification of the TypeScript-to-JSX conversion pipeline
(`scripts/run-conversion.js`) of the react-jsx-starter-kit development
repository.

Text is modelled as `List Char`. File trees are association lists from
paths (slash-separated `List Char`) to file contents. JSON-backed files
(package.json, composer.json, components.json) are modelled by their
parsed structure, since the script immediately parses them, edits the
parsed object and re-serialises it.
-/

/-! ## Core text utilities (JS string/regex primitives used by the script) -/

/-- Boolean prefix test on character lists. -/
def isPre : List Char → List Char → Bool
  | [], _ => true
  | _ :: _, [] => false
  | a :: as, b :: bs => a == b && isPre as bs

/-- Boolean substring test: does `s` contain `p` as a contiguous substring?
Mirrors JS `String.prototype.includes`. -/
def containsSub (p : List Char) : List Char → Bool
  | [] => p.isEmpty
  | c :: rest => isPre p (c :: rest) || containsSub p rest

/-- Boolean suffix test, used for `endsWith('.js')` and the `/\.js$/` anchor. -/
def endsWith (s pat : List Char) : Bool := isPre pat.reverse s.reverse

/-- JS whitespace class for regex and trim (space, tab, line terminators,
form and vertical feed, NBSP, and the Unicode space separators). -/
def jsWhitespace (c : Char) : Bool :=
  c == ' ' || c == '\t' || c == '\n' || c == '\r' ||
  c.toNat == 0xb || c.toNat == 0xc ||
  c.toNat == 0xa0 || c.toNat == 0x1680 ||
  (0x2000 ≤ c.toNat && c.toNat ≤ 0x200a) ||
  c.toNat == 0x2028 || c.toNat == 0x2029 || c.toNat == 0x202f ||
  c.toNat == 0x205f || c.toNat == 0x3000 || c.toNat == 0xfeff

/-- JS `\w` word-character class: ASCII letters, digits and underscore. -/
def isWordChar (c : Char) : Bool :=
  (97 ≤ c.toNat && c.toNat ≤ 122) || (65 ≤ c.toNat && c.toNat ≤ 90) ||
  (48 ≤ c.toNat && c.toNat ≤ 57) || c == '_'

/-- JS `String.prototype.trim`: drop whitespace from both ends. -/
def trimJS (s : List Char) : List Char :=
  ((s.dropWhile jsWhitespace).reverse.dropWhile jsWhitespace).reverse

/-- Split on a separator character; mirrors JS `String.prototype.split(sep)`
(so the empty string splits to `[""]`). -/
def splitChAux (sep : Char) : List Char → List Char → List (List Char)
  | [], acc => [acc.reverse]
  | c :: rest, acc =>
    if c == sep then acc.reverse :: splitChAux sep rest []
    else splitChAux sep rest (c :: acc)

/-- Split a character list on a separator character. -/
def splitCh (sep : Char) (s : List Char) : List (List Char) := splitChAux sep s []

/-- Join with a separator string; mirrors JS `Array.prototype.join(', ')`. -/
def joinCS : List (List Char) → List Char
  | [] => []
  | [x] => x
  | x :: xs => x ++ ',' :: ' ' :: joinCS xs

/-- Worker for `replaceAll`, structurally recursive on a fuel argument.
Every step consumes at least one character of the text, so fuel equal to
the text's length always suffices and the fuel-exhausted branch is never
reached on the intended call. -/
def replaceAllAux (p r : List Char) : Nat → List Char → List Char
  | 0, s => s
  | _ + 1, [] => []
  | n + 1, c :: rest =>
    if !p.isEmpty && isPre p (c :: rest) then
      r ++ replaceAllAux p r n ((c :: rest).drop p.length)
    else
      c :: replaceAllAux p r n rest

/-- Global literal replacement, leftmost-first and non-overlapping; mirrors a
JS `String.prototype.replace(/lit/g, r)` with a literal pattern. -/
def replaceAll (p r : List Char) (s : List Char) : List Char :=
  replaceAllAux p r s.length s

/-- First-occurrence literal replacement; mirrors JS
`String.prototype.replace('lit', r)` (string pattern replaces only the first
occurrence). -/
def replaceFirst (p r : List Char) : List Char → List Char
  | [] => []
  | c :: rest =>
    if !p.isEmpty && isPre p (c :: rest) then r ++ (c :: rest).drop p.length
    else c :: replaceFirst p r rest

/-! ## Extension classifier (`UnifiedConverter.processJavaScriptFiles`) -/

/-- Match of the code's markup heuristic `/<\w[\s>/]/` at the head of the
list: a `<`, a word character, then a single character that is whitespace,
`>`, or `/`. -/
def matchMarkupAt : List Char → Bool
  | a :: b :: c :: _ =>
    a == '<' && isWordChar b && (jsWhitespace c || c == '>' || c == '/')
  | _ => false

/-- The code's markup heuristic `/<\w[\s>/]/` as a substring search,
mirroring `original.match(/<\w[\s>/]/)`. -/
def looksLikeMarkup : List Char → Bool
  | [] => false
  | a :: rest => matchMarkupAt (a :: rest) || looksLikeMarkup rest

/-- Tail of the markup pattern as the specification words it: after `<` and a
word character comes whitespace or the two-character sequence `/>`. -/
def specMarkupTail : List Char → Bool
  | c :: rest =>
    jsWhitespace c ||
    (c == '/' && (match rest with | d :: _ => d == '>' | [] => false))
  | [] => false

/-- Markup heuristic as literally worded by the specification and the claim:
a `<`, then a word character, then whitespace or `/>`. This is the
spec-worded predicate kept for comparison against `looksLikeMarkup`, which is
translated from the code's regex. -/
def specMarkup : List Char → Bool
  | [] => false
  | a :: rest =>
    (match a :: rest with
     | x :: b :: tl => x == '<' && isWordChar b && specMarkupTail tl
     | _ => false) || specMarkup rest

/-- The `.js` extension. -/
def jsExt : List Char := ".js".data

/-- The `.jsx` extension. -/
def jsxExt : List Char := ".jsx".data

/-- Mirrors `file.replace(/\.js$/, '.jsx')`. -/
def renameJsToJsx (n : List Char) : List Char :=
  if endsWith n jsExt then n.take (n.length - 3) ++ jsxExt else n

/-- One step of the classifier loop body: rename a `.js` file whose contents
match the markup heuristic; leave everything else untouched (contents are
never rewritten). -/
def processJsFile (f : List Char × List Char) : List Char × List Char :=
  if endsWith f.1 jsExt && looksLikeMarkup f.2 then (renameJsToJsx f.1, f.2)
  else f

/-- The classifier pass over all scanned files (name, contents). -/
def processJavaScriptFiles (files : List (List Char × List Char)) :
    List (List Char × List Char) :=
  files.map processJsFile

/-! ## Compiler invoker (`UnifiedConverter.convertTypeScriptFiles`) -/

/-- Environment of one `convertTypeScriptFiles` run: the exit status of the
two possible `tsc` invocations and whether the output directory is non-empty
at the two inspection points after a failure. -/
structure CompEnv where
  firstExitOk : Bool
  outputNonEmptyAfterFirst : Bool
  retryExitOk : Bool
  outputNonEmptyAfterRetry : Bool
deriving DecidableEq

/-- Mirror of `convertTypeScriptFiles`: returns the boolean outcome together
with the number of compiler invocations performed. -/
def convertTypeScriptFiles (e : CompEnv) : Bool × Nat :=
  if e.firstExitOk then (true, 1)
  else if e.outputNonEmptyAfterFirst then (true, 1)
  else if e.retryExitOk then (true, 2)
  else if e.outputNonEmptyAfterRetry then (true, 2)
  else (false, 2)

/-! ## Reference rewriter (`UnifiedConverter.updateFileReferences`) -/

/-- The literal pattern of `content.replace(/\.tsx/g, '.jsx')`. -/
def tsxPat : List Char := ['.', 't', 's', 'x']

/-- The replacement text `.jsx`. -/
def jsxRepl : List Char := ['.', 'j', 's', 'x']

/-- Suffix of `tsxPat` after its leading dot. -/
def tsxTail : List Char := ['t', 's', 'x']

/-- Content rewrite performed on each entry file:
`content.replace(/\.tsx/g, '.jsx')`. -/
def updateEntryContent (content : List Char) : List Char :=
  replaceAll tsxPat jsxRepl content

/-- Name of the client entry file inspected by `updateFileReferences`. -/
def entryAppName : List Char := "app.jsx".data

/-- Name of the server-rendering entry file inspected by
`updateFileReferences`. -/
def entrySsrName : List Char := "ssr.jsx".data

/-- Mirror of `updateFileReferences`: rewrite the two known entry files,
leave all other files alone. -/
def updateFileReferences (files : List (List Char × List Char)) :
    List (List Char × List Char) :=
  files.map fun f =>
    if f.1 = entryAppName ∨ f.1 = entrySsrName then (f.1, updateEntryContent f.2)
    else f

/-! ## Lint-config rewrite (`UnifiedConverter.updateOutputEslintConfig`) -/

/-- The literal head of the `ignores` regex `/ignores:\s*\[([^\]]*)]/`. -/
def ignoresKw : List Char := "ignores:".data

/-- Try the `ignores` regex at the current position: literal `ignores:`,
any run of whitespace, `[`, a capture of non-`]` characters, then `]`.
Returns the capture and the text after the closing bracket. -/
def matchIgnoresHere (s : List Char) : Option (List Char × List Char) :=
  if isPre ignoresKw s then
    let s1 := s.drop 8
    let s2 := s1.drop (s1.takeWhile jsWhitespace).length
    match s2 with
    | c :: s3 =>
      if c == '[' then
        let cap := s3.takeWhile fun x => !(x == ']')
        match s3.drop cap.length with
        | d :: post => if d == ']' then some (cap, post) else none
        | [] => none
      else none
    | [] => none
  else none

/-- Leftmost match of the `ignores` regex: returns the text before the
match, the capture, and the text after the closing bracket. -/
def findIgnores : List Char → Option (List Char × List Char × List Char)
  | [] => none
  | c :: rest =>
    match matchIgnoresHere (c :: rest) with
    | some (cap, post) => some ([], cap, post)
    | none =>
      match findIgnores rest with
      | some (pre, cap, post) => some (c :: pre, cap, post)
      | none => none

/-- Literal `'output'` (single-quoted). -/
def sqOutputSq : List Char := "'output'".data

/-- Literal `"output"` (double-quoted). -/
def dqOutputDq : List Char := "\"output\"".data

/-- Literal `'output/` (single-quoted prefix form). -/
def sqOutputSl : List Char := "'output/".data

/-- Literal `"output/` (double-quoted prefix form). -/
def dqOutputSl : List Char := "\"output/".data

/-- The filter of `updateOutputEslintConfig`: keep an ignores entry unless
it is empty or contains one of the four quoted `output` forms. -/
def keepEntry (item : List Char) : Bool :=
  !item.isEmpty &&
  !containsSub sqOutputSq item && !containsSub dqOutputDq item &&
  !containsSub sqOutputSl item && !containsSub dqOutputSl item

/-- Entry-list step of the rewrite: trim each entry, then filter. -/
def processIgnoreEntries (items : List (List Char)) : List (List Char) :=
  (items.map trimJS).filter keepEntry

/-- Capture-level step: split the capture on commas, trim, filter. -/
def processIgnoreItems (cap : List Char) : List (List Char) :=
  processIgnoreEntries (splitCh ',' cap)

/-- The replacement template head `ignores: [`. -/
def ignoresOpen : List Char := "ignores: [".data

/-- Mirror of `updateOutputEslintConfig` on file content: rewrite the first
`ignores` array literal, dropping output-related entries. -/
def updateEslintContent (content : List Char) : List Char :=
  match findIgnores content with
  | none => content
  | some (pre, cap, post) =>
    pre ++ ignoresOpen ++ joinCS (processIgnoreItems cap) ++ ']' :: post

/-- The staging output directory name `output`. -/
def outputName : List Char := "output".data

/-- The claim's spec-worded removal predicate: an entry textually references
the staging output directory name. Kept for comparison with `keepEntry`,
which is translated from the code. -/
def referencesOutputName (item : List Char) : Bool :=
  containsSub outputName item

/-! ## Package-metadata rewrite (`run`, package.json section) -/

/-- Parsed shape of the package.json fields the script touches. Other
fields are untouched by the rewrite and are not modelled. -/
structure PackageJson where
  name : Option (List Char)
  description : Option (List Char)
  devDependencies : Option (List (List Char × List Char))
deriving DecidableEq

/-- Literal `react-starter-kit`. -/
def rskPat : List Char := "react-starter-kit".data

/-- Literal `react-jsx-starter-kit`. -/
def rjskRepl : List Char := "react-jsx-starter-kit".data

/-- Literal `TypeScript`. -/
def tsWord : List Char := "TypeScript".data

/-- Literal `JavaScript/JSX`. -/
def jsxWord : List Char := "JavaScript/JSX".data

/-- The four type-related dev dependencies deleted by the rewrite. -/
def tsDepKeys : List (List Char) :=
  ["typescript".data, "@types/node".data, "@types/react".data,
   "@types/react-dom".data]

/-- Deletion of the four type-related dev dependencies. -/
def removeTsDeps (deps : List (List Char × List Char)) :
    List (List Char × List Char) :=
  deps.filter fun kv => !(decide (kv.1 ∈ tsDepKeys))

/-- Mirror of the package.json rewrite: first-occurrence name replacement
guarded by an `includes` check, first-occurrence description replacement,
and dev-dependency deletion. An absent (or JS-falsy empty) name or
description is left alone; an empty string behaves identically under both
branches since it contains no occurrence of the pattern. -/
def updatePackageJson (p : PackageJson) : PackageJson :=
  { name :=
      match p.name with
      | some n =>
        if containsSub rskPat n then some (replaceFirst rskPat rjskRepl n)
        else some n
      | none => none,
    description :=
      match p.description with
      | some d => some (replaceFirst tsWord jsxWord d)
      | none => none,
    devDependencies :=
      match p.devDependencies with
      | some deps => some (removeTsDeps deps)
      | none => none }

/-- First-match association lookup (JS object key access). -/
def lookupA (k : List Char) : List (List Char × List Char) → Option (List Char)
  | [] => none
  | kv :: rest => if kv.1 = k then some kv.2 else lookupA k rest

/-- Dev-dependency lookup on the package model. -/
def devLookup (p : PackageJson) (k : List Char) : Option (List Char) :=
  match p.devDependencies with
  | none => none
  | some deps => lookupA k deps

/-! ## Bundler-config rewrite (`vite.config.ts` conversion in `run`) -/

/-- Literal `import`. -/
def importKw : List Char := "import".data

/-- Literal `type`. -/
def typeKw : List Char := "type".data

/-- Literal `from`. -/
def fromKw : List Char := "from".data

/-- Opening brace character. -/
def lbraceC : Char := Char.ofNat 123

/-- Closing brace character. -/
def rbraceC : Char := Char.ofNat 125

/-- Head-of-list whitespace test. -/
def headIsWs : List Char → Bool
  | c :: _ => jsWhitespace c
  | [] => false

/-- Try `import\s+type\s+[^;]+;` at the current position. With greedy
classes and backtracking this regex matches exactly when after
`import`, one or more whitespace characters, and `type` there are at least
two characters before the next `;`, the first of them whitespace. Returns
the text after the consumed match. -/
def matchTypeImport1At (s : List Char) : Option (List Char) :=
  if isPre importKw s then
    let s1 := s.drop 6
    let ws1 := s1.takeWhile jsWhitespace
    if ws1.isEmpty then none
    else
      let s2 := s1.drop ws1.length
      if isPre typeKw s2 then
        let s3 := s2.drop 4
        let gap := s3.takeWhile fun c => !(c == ';')
        match s3.drop gap.length with
        | c :: rest =>
          if c == ';' && decide (2 ≤ gap.length) && headIsWs gap then some rest
          else none
        | [] => none
      else none
  else none

/-- Try `import\s*\{[^}]*type[^}]*\}\s*from\s*['][^']+[']` at the current
position (the source's quote classes contain only the single quote).
Returns the text after the consumed match. -/
def matchTypeImport2At (s : List Char) : Option (List Char) :=
  if isPre importKw s then
    let s1 := s.drop 6
    let s2 := s1.drop (s1.takeWhile jsWhitespace).length
    match s2 with
    | c :: s3 =>
      if c == lbraceC then
        let gap := s3.takeWhile fun x => !(x == rbraceC)
        match s3.drop gap.length with
        | d :: s4 =>
          if d == rbraceC && containsSub typeKw gap then
            let s5 := s4.drop (s4.takeWhile jsWhitespace).length
            if isPre fromKw s5 then
              let s6 := s5.drop 4
              let s7 := s6.drop (s6.takeWhile jsWhitespace).length
              match s7 with
              | q :: s8 =>
                if q == '\'' then
                  let g2 := s8.takeWhile fun x => !(x == '\'')
                  if g2.isEmpty then none
                  else
                    match s8.drop g2.length with
                    | q2 :: s9 => if q2 == '\'' then some s9 else none
                    | [] => none
                else none
              | [] => none
            else none
          else none
        | [] => none
      else none
    | [] => none
  else none

/-- Generic fuel-driven global replace driven by a positional matcher that
returns the text after a match. Every match consumes at least one
character, so fuel equal to the text length suffices. -/
def globalReplaceByAux (matchAt : List Char → Option (List Char))
    (repl : List Char) : Nat → List Char → List Char
  | 0, s => s
  | _ + 1, [] => []
  | n + 1, c :: rest =>
    match matchAt (c :: rest) with
    | some r => repl ++ globalReplaceByAux matchAt repl n r
    | none => c :: globalReplaceByAux matchAt repl n rest

/-- Global replace by a positional matcher. -/
def globalReplaceBy (matchAt : List Char → Option (List Char))
    (repl : List Char) (s : List Char) : List Char :=
  globalReplaceByAux matchAt repl s.length s

/-- `content.replace(/import\s+type\s+[^;]+;/g, '')`. -/
def stripTypeImports1 (s : List Char) : List Char :=
  globalReplaceBy matchTypeImport1At [] s

/-- The second type-import strip of the vite rewrite. -/
def stripTypeImports2 (s : List Char) : List Char :=
  globalReplaceBy matchTypeImport2At [] s

/-- JS line terminators, after which the multiline anchor `^` matches. -/
def isLineTerm (c : Char) : Bool :=
  c == '\n' || c == '\r' || c.toNat == 0x2028 || c.toNat == 0x2029

/-- Index of the last `\n` in a list, if any. -/
def lastNlIdx : List Char → Option Nat
  | [] => none
  | c :: rest =>
    match lastNlIdx rest with
    | some j => some (j + 1)
    | none => if c == '\n' then some 0 else none

/-- Worker for `/^\s*\n/gm`: at a line start, the greedy whitespace run is
consumed up to and including its last newline (regex backtracking makes the
final `\n` the last newline of the run); elsewhere characters are copied. -/
def stripBlankAux : Nat → Bool → List Char → List Char
  | 0, _, s => s
  | _ + 1, _, [] => []
  | n + 1, atStart, c :: rest =>
    if atStart then
      let run := (c :: rest).takeWhile jsWhitespace
      match lastNlIdx run with
      | some j => stripBlankAux n true ((c :: rest).drop (j + 1))
      | none => c :: stripBlankAux n (isLineTerm c) rest
    else c :: stripBlankAux n (isLineTerm c) rest

/-- `content.replace(/^\s*\n/gm, '')`. -/
def stripBlankLines (s : List Char) : List Char :=
  stripBlankAux s.length true s

/-- Literal `__dirname`. -/
def dirnameKw : List Char := "__dirname".data

/-- Literal `fileURLToPath`. -/
def fileURLKw : List Char := "fileURLToPath".data

/-- The ESM replacement expression for `__dirname`. -/
def dirnameRepl : List Char :=
  "fileURLToPath(new URL('.', import.meta.url))".data

/-- The `['"]` quote class of the node:path import regex. -/
def nodePathQuote (c : Char) : Bool := c == '\'' || c == '"'

/-- Literal `node:path`. -/
def nodePathKw : List Char := "node:path".data

/-- The inserted `node:url` import line (placed after the matched
node:path import by the `$1\n...` replacement). -/
def urlImportLine : List Char :=
  "\nimport \x7b fileURLToPath, URL \x7d from 'node:url';".data

/-- Try `import\s+\{[^}]*\}\s+from\s+['"]node:path['"];?` at the current
position; returns the number of characters consumed. -/
def matchNodePathImportAt (s : List Char) : Option Nat :=
  if isPre importKw s then
    let s1 := s.drop 6
    let w1 := (s1.takeWhile jsWhitespace).length
    if w1 == 0 then none
    else
      let s2 := s1.drop w1
      match s2 with
      | c :: s3 =>
        if c == lbraceC then
          let gap := s3.takeWhile fun x => !(x == rbraceC)
          match s3.drop gap.length with
          | d :: s4 =>
            if d == rbraceC then
              let w2 := (s4.takeWhile jsWhitespace).length
              if w2 == 0 then none
              else
                let s5 := s4.drop w2
                if isPre fromKw s5 then
                  let s6 := s5.drop 4
                  let w3 := (s6.takeWhile jsWhitespace).length
                  if w3 == 0 then none
                  else
                    let s7 := s6.drop w3
                    match s7 with
                    | q :: s8 =>
                      if nodePathQuote q && isPre nodePathKw s8 then
                        let s9 := s8.drop 9
                        match s9 with
                        | q2 :: s10 =>
                          if nodePathQuote q2 then
                            let base :=
                              6 + w1 + 1 + gap.length + 1 + w2 + 4 + w3 +
                                1 + 9 + 1
                            match s10 with
                            | e :: _ =>
                              if e == ';' then some (base + 1) else some base
                            | [] => some base
                          else none
                        | [] => none
                      else none
                    | [] => none
                else none
            else none
          | [] => none
        else none
      | [] => none
  else none

/-- First-occurrence insertion of the `node:url` import after the matched
node:path import line. -/
def insertUrlImportAux : Nat → List Char → List Char
  | 0, s => s
  | _ + 1, [] => []
  | n + 1, c :: rest =>
    match matchNodePathImportAt (c :: rest) with
    | some k => (c :: rest).take k ++ urlImportLine ++ (c :: rest).drop k
    | none => c :: insertUrlImportAux n rest

/-- The `fileURLToPath` import insertion of the `__dirname` fix. -/
def insertUrlImport (s : List Char) : List Char :=
  insertUrlImportAux s.length s

/-- Literal `resources/js/app.tsx`. -/
def appTsxPath : List Char := "resources/js/app.tsx".data

/-- Literal `resources/js/app.jsx`. -/
def appJsxPath : List Char := "resources/js/app.jsx".data

/-- Literal `resources/js/ssr.tsx`. -/
def ssrTsxPath : List Char := "resources/js/ssr.tsx".data

/-- Literal `resources/js/ssr.jsx`. -/
def ssrJsxPath : List Char := "resources/js/ssr.jsx".data

/-- Mirror of the in-`run` vite.config.ts content rewrite: strip type-only
imports (two regex forms), retarget the two entry paths, remove blank
lines, and apply the `__dirname` ESM fix. -/
def updateViteContent (c : List Char) : List Char :=
  let c1 := stripTypeImports1 c
  let c2 := stripTypeImports2 c1
  let c3 := replaceAll appTsxPath appJsxPath c2
  let c4 := replaceAll ssrTsxPath ssrJsxPath c3
  let c5 := stripBlankLines c4
  if containsSub dirnameKw c5 then
    let c6 := if containsSub fileURLKw c5 then c5 else insertUrlImport c5
    replaceAll dirnameKw dirnameRepl c6
  else c5

/-! ## View-template rewrite (`app.blade.php` section of `run`) -/

/-- Head of the blade `@vite` pattern, up to the comma. -/
def bladeHead : List Char := "@vite(['resources/js/app.tsx',".data

/-- Tail of the blade `@vite` pattern, after the `\s*` gap. -/
def bladeTail : List Char :=
  "\"resources/js/pages/\x7b$page['component']\x7d.tsx\"])".data

/-- Replacement text of the blade `@vite` rewrite. -/
def bladeNew : List Char :=
  "@vite(['resources/js/app.jsx', \"resources/js/pages/\x7b$page['component']\x7d.jsx\"])".data

/-- Try the blade `@vite` pattern at the current position. -/
def matchBladeAt (s : List Char) : Option (List Char) :=
  if isPre bladeHead s then
    let s1 := s.drop bladeHead.length
    let s2 := s1.drop (s1.takeWhile jsWhitespace).length
    if isPre bladeTail s2 then some (s2.drop bladeTail.length) else none
  else none

/-- Mirror of the blade-template content rewrite in `run`. -/
def updateBladeContent (s : List Char) : List Char :=
  globalReplaceBy matchBladeAt bladeNew s

/-! ## File-tree model of the staging pipeline -/

/-- Parsed shape of composer.json: the script overwrites only `name`. -/
structure ComposerJson where
  name : List Char
  rest : List (List Char × List Char)
deriving DecidableEq

/-- Parsed shape of components.json: the script forces only `tsx`. -/
structure ComponentsJson where
  tsx : Bool
  rest : List (List Char × List Char)
deriving DecidableEq

/-- File contents: plain text, or the parsed form of one of the three
JSON files the script edits structurally. -/
inductive FC where
  | txt : List Char → FC
  | pkg : PackageJson → FC
  | composer : ComposerJson → FC
  | comps : ComponentsJson → FC
deriving DecidableEq

/-- A file tree: association list from slash-separated paths to contents. -/
abbrev FTree := List (List Char × FC)

/-- First-match path lookup in a tree. -/
def lookupTree : FTree → List Char → Option FC
  | [], _ => none
  | f :: rest, p => if f.1 = p then some f.2 else lookupTree rest p

/-- The `excludeDirs` list of `copyProjectStructure`. -/
def excludeDirsL : List (List Char) :=
  ["output".data, "node_modules".data, "scripts".data, "vendor".data,
   "templates".data, "storage/logs".data, ".git".data]

/-- The `excludeFiles` list of `copyProjectStructure`. -/
def excludeFilesL : List (List Char) :=
  ["composer.lock".data, ".env".data, "workflow-test-report.json".data]

/-- The specially handled `.github` directory name. -/
def githubName : List Char := ".github".data

/-- Path components of a slash-separated path. -/
def pathComponents (p : List Char) : List (List Char) := splitCh '/' p

/-- A path survives the recursive copy when no component is in either
exclusion list and none is `.github` (skipped at every level by the copy
loop). -/
def copyKeep (p : List Char) : Bool :=
  (pathComponents p).all fun comp =>
    !(decide (comp ∈ excludeDirsL)) && !(decide (comp ∈ excludeFilesL)) &&
      !(comp == githubName)

/-- Prefix of the workflow files inside `.github`. -/
def workflowsPre : List Char := ".github/workflows/".data

/-- The `allowedWorkflows` list. -/
def allowedWorkflows : List (List Char) := ["lint.yml".data, "tests.yml".data]

/-- Source path of the template auto-release workflow. -/
def templateWorkflowPath : List Char :=
  "templates/workflows/auto-release.yml".data

/-- Target path of the copied auto-release workflow. -/
def autoReleaseTarget : List Char := ".github/workflows/auto-release.yml".data

/-- Mirror of `copyProjectStructure`: the filtered recursive copy, plus the
allow-listed workflow files, plus the template auto-release workflow. -/
def copyProjectStructure (project : FTree) : FTree :=
  project.filter (fun f => copyKeep f.1) ++
  (allowedWorkflows.filterMap fun w =>
    match lookupTree project (workflowsPre ++ w) with
    | some fc => some (workflowsPre ++ w, fc)
    | none => none) ++
  (match lookupTree project templateWorkflowPath with
   | some fc => [(autoReleaseTarget, fc)]
   | none => [])

/-- Path of the staged lint configuration. -/
def eslintPath : List Char := "eslint.config.js".data

/-- Mirror of `updateOutputEslintConfig` as a staging-tree stage. -/
def updateOutputEslintConfig (t : FTree) : FTree :=
  t.map fun f =>
    if f.1 = eslintPath then
      match f.2 with
      | FC.txt c => (f.1, FC.txt (updateEslintContent c))
      | _ => f
    else f

/-- Path prefix of the transient compiler output directory inside staging. -/
def jsDirPre : List Char := "js/".data

/-- Path prefix `resources/`. -/
def resourcesPre : List Char := "resources/".data

/-- Path prefix `resources/js/`. -/
def resJsPre : List Char := "resources/js/".data

/-- Path prefix of the removed types directory. -/
def typesPre : List Char := "resources/js/types/".data

/-- Classifier step on one tree entry with text contents. -/
def classifyEntry (f : List Char × FC) : List Char × FC :=
  match f.2 with
  | FC.txt c =>
    let r := processJsFile (f.1, c)
    (r.1, FC.txt r.2)
  | _ => f

/-- The classifier pass over the compiler output subtree `js/`. -/
def classifyStage (t : FTree) : FTree :=
  t.map fun f => if isPre jsDirPre f.1 then classifyEntry f else f

/-- Staged path of the converted client entry file. -/
def jsAppPath : List Char := "js/app.jsx".data

/-- Staged path of the converted server-rendering entry file. -/
def jsSsrPath : List Char := "js/ssr.jsx".data

/-- The reference-rewrite stage over the two known entry files. -/
def refsStage (t : FTree) : FTree :=
  t.map fun f =>
    if f.1 = jsAppPath ∨ f.1 = jsSsrPath then
      match f.2 with
      | FC.txt c => (f.1, FC.txt (updateEntryContent c))
      | _ => f
    else f

/-- Replacement of `resources/js` by a copy of the converted `js/` tree. -/
def replaceResourcesStage (t : FTree) : FTree :=
  t.filter (fun f => !(isPre resJsPre f.1)) ++
  (t.filter fun f => isPre jsDirPre f.1).map fun f =>
    (resourcesPre ++ f.1, f.2)

/-- Staged path of the TypeScript bundler config. -/
def viteTsPath : List Char := "vite.config.ts".data

/-- Staged path of the converted bundler config. -/
def viteJsPath : List Char := "vite.config.js".data

/-- The bundler-config stage: convert `vite.config.ts` to
`vite.config.js` and delete the TypeScript original. -/
def viteStage (t : FTree) : FTree :=
  match lookupTree t viteTsPath with
  | some (FC.txt c) =>
    (t.filter fun f => !(f.1 == viteTsPath) && !(f.1 == viteJsPath)) ++
    [(viteJsPath, FC.txt (updateViteContent c))]
  | _ => t

/-- Staged path of the view template. -/
def bladePath : List Char := "resources/views/app.blade.php".data

/-- The view-template stage. -/
def bladeStage (t : FTree) : FTree :=
  t.map fun f =>
    if f.1 = bladePath then
      match f.2 with
      | FC.txt c => (f.1, FC.txt (updateBladeContent c))
      | _ => f
    else f

/-- Staged path `tsconfig.json`. -/
def tsconfigJsonPath : List Char := "tsconfig.json".data

/-- Staged path `tsconfig.node.json`. -/
def tsconfigNodePath : List Char := "tsconfig.node.json".data

/-- Removal of the two TypeScript configuration files. -/
def rmTsConfigStage (t : FTree) : FTree :=
  t.filter fun f => !(f.1 == tsconfigJsonPath) && !(f.1 == tsconfigNodePath)

/-- Removal of the `resources/js/types` directory. -/
def rmTypesStage (t : FTree) : FTree :=
  t.filter fun f => !(isPre typesPre f.1)

/-- Staged path `package.json`. -/
def pkgPath : List Char := "package.json".data

/-- The package-metadata stage. -/
def packageStage (t : FTree) : FTree :=
  t.map fun f =>
    if f.1 = pkgPath then
      match f.2 with
      | FC.pkg p => (f.1, FC.pkg (updatePackageJson p))
      | _ => f
    else f

/-- Staged path `composer.json`. -/
def composerPath : List Char := "composer.json".data

/-- The new composer package name set outright by the script. -/
def composerNewName : List Char := "aliziodev/react-jsx-starter-kit".data

/-- The composer-manifest stage. -/
def composerStage (t : FTree) : FTree :=
  t.map fun f =>
    if f.1 = composerPath then
      match f.2 with
      | FC.composer c => (f.1, FC.composer { c with name := composerNewName })
      | _ => f
    else f

/-- Staged path `components.json`. -/
def componentsPath : List Char := "components.json".data

/-- The component-registry stage: force `tsx` to false. -/
def componentsStage (t : FTree) : FTree :=
  t.map fun f =>
    if f.1 = componentsPath then
      match f.2 with
      | FC.comps c => (f.1, FC.comps { c with tsx := false })
      | _ => f
    else f

/-- Staged path `README.md`. -/
def readmePath : List Char := "README.md".data

/-- The fixed README template written wholesale by the script. -/
def templateReadme : List Char :=
  "# Laravel + React JSX Starter Kit\n\n## Introduction\n\nOur React JSX starter kit provides a robust, modern starting point for building Laravel applications with a React frontend using [Inertia](https://inertiajs.com), using **JavaScript/JSX instead of TypeScript** for broader accessibility.\n\nInertia allows you to build modern, single-page React applications using classic server-side routing and controllers. This lets you enjoy the frontend power of React combined with the incredible backend productivity of Laravel and lightning-fast Vite compilation.\n\nThis React starter kit utilizes React 19, **JavaScript/JSX**, Tailwind, and the [shadcn/ui](https://ui.shadcn.com) and [radix-ui](https://www.radix-ui.com) component libraries.\n\n> **Note:** This template is automatically generated from [aliziodev/react-jsx-starter-kit-dev](https://github.com/aliziodev/react-jsx-starter-kit-dev) based on the original Laravel React starter kit repository. The conversion process transforms TypeScript files to JavaScript/JSX for broader accessibility.\n\n## Usage\n\n```bash\nlaravel new my-app --using=aliziodev/react-jsx-starter-kit\n```\n\n## Official Documentation\n\nDocumentation for all Laravel starter kits can be found on the [Laravel website](https://laravel.com/docs/starter-kits).\n\n## Contributing\n\nThank you for considering contributing to our starter kit! The contribution guide can be found in the [Laravel documentation](https://laravel.com/docs/contributions).\n\n## Code of Conduct\n\nIn order to ensure that the Laravel community is welcoming to all, please review and abide by the [Code of Conduct](https://laravel.com/docs/contributions#code-of-conduct).\n\n## License\n\nThe Laravel + React JSX starter kit is open-sourced software licensed under the MIT license.\n".data

/-- The README replacement stage. -/
def readmeStage (t : FTree) : FTree :=
  t.map fun f => if f.1 = readmePath then (f.1, FC.txt templateReadme) else f

/-- Staged path of a stray copied transient compiler config. -/
def tsconfigTempPath : List Char := "tsconfig.temp.json".data

/-- The temporary-file removal stage: delete a stray `tsconfig.temp.json`
and the whole intermediate `js/` directory. -/
def rmTempStage (t : FTree) : FTree :=
  t.filter fun f => !(f.1 == tsconfigTempPath) && !(isPre jsDirPre f.1)

/-- The compiler output placed under `js/` inside the staging tree. -/
def prefixJsTree (emitted : FTree) : FTree :=
  emitted.map fun f => (jsDirPre ++ f.1, f.2)

/-- The downstream stages of `run`, executed in source order once the
compiler gate has been passed. -/
def downstreamStages (t : FTree) (emitted : FTree) : FTree :=
  rmTempStage (readmeStage (componentsStage (composerStage (packageStage
    (rmTypesStage (rmTsConfigStage (bladeStage (viteStage
      (replaceResourcesStage (refsStage (classifyStage
        (t ++ prefixJsTree emitted))))))))))))

/-! ## The `run` driver -/

/-- Pipeline stages of `UnifiedConverter.run`, for the execution trace. -/
inductive Stage where
  | setup
  | copy
  | eslintRewrite
  | tsconfigWrite
  | compile
  | classify
  | refs
  | replaceResources
  | vite
  | blade
  | rmTsConfigs
  | rmTypes
  | pkgRewrite
  | composerRewrite
  | componentsRewrite
  | readme
  | tempRemoval
  | stats
deriving DecidableEq

/-- Trace of a run halted by compiler total failure. -/
def haltTrace : List Stage :=
  [Stage.setup, Stage.copy, Stage.eslintRewrite, Stage.tsconfigWrite,
   Stage.compile]

/-- Trace of a completed run. -/
def fullTrace : List Stage :=
  haltTrace ++
  [Stage.classify, Stage.refs, Stage.replaceResources, Stage.vite,
   Stage.blade, Stage.rmTsConfigs, Stage.rmTypes, Stage.pkgRewrite,
   Stage.composerRewrite, Stage.componentsRewrite, Stage.readme,
   Stage.tempRemoval, Stage.stats]

/-- Environment of one `run`: validation outcomes, the staging tree left
over from a prior run, the current project tree, the black-box compiler's
emitted output, and the compiler invocation outcomes. -/
structure RunEnv where
  depsOk : Bool
  sourceDirExists : Bool
  priorStaging : FTree
  project : FTree
  emitted : FTree
  comp : CompEnv

/-- Result of one `run`: the executed stage trace and the staging tree. -/
structure RunResult where
  trace : List Stage
  staging : FTree
deriving DecidableEq

/-- The setup step: `rmSync(outputDir, recursive)` followed by recreation —
whatever the prior staging tree held, the directory is now empty. -/
def setupStage (_prior : FTree) : FTree := []

/-- Mirror of `UnifiedConverter.run`: validation, setup, full project copy,
lint-config rewrite, transient compiler config, the compiler gate, then the
downstream stages. Each `return` of the source maps to an early result. -/
def runModel (e : RunEnv) : RunResult :=
  if e.depsOk = false then { trace := [], staging := e.priorStaging }
  else if e.sourceDirExists = false then { trace := [], staging := e.priorStaging }
  else
    let t2 := setupStage e.priorStaging ++ copyProjectStructure e.project
    let t3 := updateOutputEslintConfig t2
    if (convertTypeScriptFiles e.comp).1 = false then
      { trace := haltTrace, staging := t3 }
    else
      { trace := fullTrace, staging := downstreamStages t3 e.emitted }

/-! ## Self-test (`WorkflowTester`) -/

/-- Outcome of one prerequisite check: whether its command ran
successfully, and whether its validator (if any; `true` otherwise)
accepted the output. -/
structure PrereqCheck where
  cmdOk : Bool
  validatorOk : Bool
deriving DecidableEq

/-- Environment of one self-test run. -/
structure TesterEnv where
  prereqChecks : List PrereqCheck
  requiredFilesExist : List Bool
  requiredDirsExist : List Bool
  conversionCmdOk : Bool
  outputFilesExist : List Bool
  outputDirsExist : List Bool
  gitCmdResults : List Bool
deriving DecidableEq

/-- Mirror of `checkPrerequisites`: all checks must run and validate. -/
def checkPrerequisites (e : TesterEnv) : Bool :=
  e.prereqChecks.all fun c => c.cmdOk && c.validatorOk

/-- Mirror of `checkProjectStructure`. -/
def checkProjectStructure (e : TesterEnv) : Bool :=
  e.requiredFilesExist.all id && e.requiredDirsExist.all id

/-- Mirror of `verifyConversionOutput`: only the required files and
directories affect the verdict; the count and package inspections print
warnings without touching `allValid`. -/
def verifyConversionOutput (e : TesterEnv) : Bool :=
  e.outputFilesExist.all id && e.outputDirsExist.all id

/-- Mirror of `testConversion`: the conversion command must succeed and the
output must verify. -/
def testConversion (e : TesterEnv) : Bool :=
  e.conversionCmdOk && verifyConversionOutput e

/-- Mirror of `testWorkflowComponents`: runs git and npm commands, ignores
their outcomes, and returns `true` unconditionally. -/
def testWorkflowComponents (_e : TesterEnv) : Bool := true

/-- The JSON test report fields whose values the script chooses. -/
structure TestReport where
  status : List Char
  prereqSummary : List Char
  structureSummary : List Char
  conversionSummary : List Char
  componentsSummary : List Char
deriving DecidableEq

/-- Literal `passed`. -/
def passedWord : List Char := "passed".data

/-- Literal `completed`. -/
def completedWord : List Char := "completed".data

/-- Mirror of `generateReport`: a constant report. -/
def generateReport : TestReport :=
  { status := completedWord,
    prereqSummary := passedWord,
    structureSummary := passedWord,
    conversionSummary := passedWord,
    componentsSummary := passedWord }

/-- Result of one self-test run. -/
structure TesterResult where
  reportWritten : Bool
  report : TestReport
  exitCode : Nat
deriving DecidableEq

/-- Mirror of `WorkflowTester.run`: the four checks run in sequence, each
failing one clears the flag; the report is generated before either exit. -/
def testerRun (e : TesterEnv) : TesterResult :=
  let allTestsPassed :=
    checkPrerequisites e && checkProjectStructure e && testConversion e &&
      testWorkflowComponents e
  { reportWritten := true,
    report := generateReport,
    exitCode := if allTestsPassed then 0 else 1 }


/-! ## Concrete inputs used by counterexamples and witnesses -/

/-- Literal `vendor/react-starter-kit`. -/
def vendorOldName : List Char := "vendor/react-starter-kit".data

/-- Literal `vendor/react-jsx-starter-kit`. -/
def vendorNewName : List Char := "vendor/react-jsx-starter-kit".data

/-- A compiler environment in which both invocations fail with an empty
output directory (total failure). -/
def compFailAll : CompEnv :=
  { firstExitOk := false, outputNonEmptyAfterFirst := false,
    retryExitOk := false, outputNonEmptyAfterRetry := false }

/-- A compiler environment whose first invocation exits non-zero but
leaves a non-empty output directory (soft success). -/
def softCompEnv : CompEnv :=
  { firstExitOk := false, outputNonEmptyAfterFirst := true,
    retryExitOk := false, outputNonEmptyAfterRetry := false }

/-- Source path used by the halt examples. -/
def haltSrcPath : List Char := "resources/js/app.tsx".data

/-- Source contents used by the halt examples. -/
def haltSrcContent : List Char := "const x = 1;".data

/-- Lint config contents used by the halt examples, with an output-related
ignores entry. -/
def haltEslintContent : List Char :=
  "export default \x7b ignores: ['output', 'dist'] \x7d;".data

/-- A two-file project: a lint config with an output-related ignores entry,
and one source file. -/
def haltProject : FTree :=
  [(eslintPath, FC.txt haltEslintContent), (haltSrcPath, FC.txt haltSrcContent)]

/-- A run environment that passes validation and then meets compiler total
failure. -/
def runEnvHalt : RunEnv :=
  { depsOk := true, sourceDirExists := true, priorStaging := [],
    project := haltProject, emitted := [], comp := compFailAll }

/-- The lint config of `haltProject` after the ignores rewrite. -/
def haltMutatedEslint : List Char :=
  "export default \x7b ignores: ['dist'] \x7d;".data

/-- A stale staging tree left over by a prior run. -/
def c4Stale : FTree := [(("stale.txt".data), FC.txt ("old".data))]

/-- Classifier counterexample file name `a.js`. -/
def c1CxName : List Char := "a.js".data

/-- Classifier counterexample contents `<a>`: matched by the code's
heuristic, not matched by the claim's worded pattern. -/
def c1CxContent : List Char := "<a>".data

/-- The renamed counterexample file name `a.jsx`. -/
def c1CxRenamed : List Char := "a.jsx".data

/-- Classifier witness file name. -/
def c1wName : List Char := "app.js".data

/-- Classifier witness contents (contains `<p>`). -/
def c1wContent : List Char := "export default () => <p>hello</p>;".data

/-- Reference-rewrite witness contents. -/
def c5ExContent : List Char := "import App from './App.tsx';".data

/-- Literal `typescript`. -/
def typescriptKey : List Char := "typescript".data

/-- Literal `react`. -/
def reactKey : List Char := "react".data

/-- Package witness: the upstream name, a description, and a dependency map
holding one deleted and one kept entry. -/
def c6ExPkg : PackageJson :=
  { name := some vendorOldName,
    description := some ("The TypeScript starter".data),
    devDependencies := some
      [((typescriptKey), ("5.0".data)), ((reactKey), ("19".data))] }

/-- Lint-config counterexample content: the entry `'pre-output'` textually
contains the output directory name but matches none of the code's quoted
forms. -/
def c7CxContent : List Char :=
  "export default \x7b ignores: ['pre-output', 'output'] \x7d;".data

/-- Expected rewrite of `c7CxContent`: only the exact quoted entry is
removed. -/
def c7CxExpected : List Char :=
  "export default \x7b ignores: ['pre-output'] \x7d;".data

/-- The kept entry of the lint-config counterexample. -/
def preOutputEntry : List Char := "'pre-output'".data

/-- Lint-config witness content. -/
def c7wContent : List Char := "ignores: ['a', 'output']".data

/-- The capture of the witness content's ignores array. -/
def c7wCap : List Char := "'a', 'output'".data

/-- The kept entry of the lint-config witness. -/
def c7wEntry : List Char := "'a'".data

/-- A package name holding two occurrences of the replaced substring. -/
def pkgTwiceName : List Char := "a/react-starter-kit-react-starter-kit".data

/-- A package whose name holds two occurrences of the replaced substring. -/
def pkgTwice : PackageJson :=
  { name := some pkgTwiceName, description := none, devDependencies := none }

/-- Dev-dependency map used by the idempotence witness. -/
def c8wDeps : List (List Char × List Char) :=
  [((typescriptKey), ("5".data)), (("vite".data), ("6".data))]

/-- A self-test environment in which every check passes. -/
def tEnvPass : TesterEnv :=
  { prereqChecks := [{ cmdOk := true, validatorOk := true }],
    requiredFilesExist := [true, true], requiredDirsExist := [true],
    conversionCmdOk := true, outputFilesExist := [true],
    outputDirsExist := [true], gitCmdResults := [true] }

/-- A self-test environment whose conversion command fails. -/
def tEnvFail : TesterEnv := { tEnvPass with conversionCmdOk := false }

/-! ## Supporting lemmas -/

/-- A pattern made of characters other than `.` that is a prefix of the
output of the `.tsx`-replacer is already a prefix of its input: both the
replacement text and any replaced occurrence start with `.`, so such a
prefix can only come from copied input characters. -/
theorem isPre_replaceAux_noDot :
    ∀ (q : List Char) (n : Nat) (s : List Char), (∀ x ∈ q, ¬x = '.') →
      isPre q (replaceAllAux tsxPat jsxRepl n s) = true → isPre q s = true := by
  intro q
  induction q with
  | nil => intro n s _ _; rfl
  | cons x qs ih =>
    intro n s hq h
    cases n with
    | zero =>
      simpa [replaceAllAux] using h
    | succ n =>
      cases s with
      | nil => simp [replaceAllAux, isPre] at h
      | cons c rest =>
        simp only [replaceAllAux] at h
        split at h
        case isTrue hcond =>
          rw [show ∀ Z, jsxRepl ++ Z = '.' :: 'j' :: 's' :: 'x' :: Z from fun Z => rfl] at h
          simp only [isPre, Bool.and_eq_true, beq_iff_eq] at h
          exact absurd h.1 (hq x (by simp))
        case isFalse hcond =>
          simp only [isPre, Bool.and_eq_true] at h ⊢
          exact ⟨h.1, ih n rest (fun y hy => hq y (List.mem_cons_of_mem _ hy)) h.2⟩

/-- Worker lemma: the output of the `.tsx` to `.jsx` replacer contains no
occurrence of `.tsx`, for sufficient fuel. -/
theorem noTsxAux :
    ∀ (n : Nat) (s : List Char), s.length ≤ n →
      containsSub tsxPat (replaceAllAux tsxPat jsxRepl n s) = false := by
  intro n
  induction n with
  | zero =>
    intro s hs
    have hnil : s = [] := List.length_eq_zero.mp (Nat.le_zero.mp hs)
    subst hnil
    decide
  | succ n ih =>
    intro s hs
    cases s with
    | nil => simp [replaceAllAux, containsSub, tsxPat]
    | cons c rest =>
      simp only [replaceAllAux]
      split
      case isTrue hcond =>
        have hpre : isPre tsxPat (c :: rest) = true :=
          ((Bool.and_eq_true _ _).mp hcond).2
        obtain ⟨t, hc, hrest⟩ : ∃ t, c = '.' ∧ rest = 't' :: 's' :: 'x' :: t := by
          cases rest with
          | nil => simp [tsxPat, isPre] at hpre
          | cons a r1 =>
            cases r1 with
            | nil => simp [tsxPat, isPre] at hpre
            | cons b r2 =>
              cases r2 with
              | nil => simp [tsxPat, isPre] at hpre
              | cons d r3 =>
                simp only [tsxPat, isPre, Bool.and_eq_true, beq_iff_eq] at hpre
                exact ⟨r3, hpre.1.symm, by
                  rw [← hpre.2.1, ← hpre.2.2.1, ← hpre.2.2.2.1]⟩
        subst hc
        subst hrest
        have hdrop :
            (('.' : Char) :: 't' :: 's' :: 'x' :: t).drop tsxPat.length = t := rfl
        rw [hdrop]
        rw [show ∀ Z, jsxRepl ++ Z = '.' :: 'j' :: 's' :: 'x' :: Z from fun Z => rfl]
        have hX := ih t (by simp at hs; omega)
        simp only [containsSub, hX]
        simp +decide [tsxPat, isPre]
      case isFalse hcond =>
        have hpre : isPre tsxPat (c :: rest) = false := by
          cases hp : isPre tsxPat (c :: rest) with
          | false => rfl
          | true => exact absurd (by simp [hp]; decide) hcond
        simp only [containsSub]
        have hrest := ih rest (by simp at hs; omega)
        rw [hrest, Bool.or_false]
        cases hp : isPre tsxPat (c :: replaceAllAux tsxPat jsxRepl n rest) with
        | false => rfl
        | true =>
          exfalso
          have h1 : ('.' == c) = true ∧
              isPre tsxTail (replaceAllAux tsxPat jsxRepl n rest) = true := by
            simpa only [tsxPat, tsxTail, isPre, Bool.and_eq_true] using hp
          have h2 := isPre_replaceAux_noDot tsxTail n rest (by decide) h1.2
          have hc : c = '.' := (beq_iff_eq.mp h1.1).symm
          subst hc
          rw [show isPre tsxPat ('.' :: rest) = isPre tsxTail rest from by
            simp [tsxPat, tsxTail, isPre]] at hpre
          rw [h2] at hpre
          exact absurd hpre (by decide)

/-- The entry-file content rewrite leaves no occurrence of `.tsx`. -/
theorem updateEntryContent_noTsx (content : List Char) :
    containsSub tsxPat (updateEntryContent content) = false :=
  noTsxAux content.length content le_rfl

/-- After deletion, none of the four type-related keys resolves. -/
theorem lookupA_removeTsDeps_mem (k : List Char) (hk : k ∈ tsDepKeys) :
    ∀ l, lookupA k (removeTsDeps l) = none := by
  intro l
  induction l with
  | nil => rfl
  | cons kv rest ih =>
    by_cases hm : kv.1 ∈ tsDepKeys
    · simpa [removeTsDeps, List.filter_cons, hm] using ih
    · have hne : ¬kv.1 = k := fun h => hm (h ▸ hk)
      simpa [removeTsDeps, List.filter_cons, hm, lookupA, hne] using ih

/-- Deletion of the four type-related keys does not change the lookup of
any other key. -/
theorem lookupA_removeTsDeps_not_mem (k : List Char) (hk : k ∉ tsDepKeys) :
    ∀ l, lookupA k (removeTsDeps l) = lookupA k l := by
  intro l
  induction l with
  | nil => rfl
  | cons kv rest ih =>
    by_cases hm : kv.1 ∈ tsDepKeys
    · have hne : ¬kv.1 = k := fun h => hk (h ▸ hm)
      simpa [removeTsDeps, List.filter_cons, hm, lookupA, hne] using ih
    · by_cases he : kv.1 = k
      · simp [removeTsDeps, List.filter_cons, hm, lookupA, he, hk]
      · simpa [removeTsDeps, List.filter_cons, hm, lookupA, he] using ih

/-! ## Idempotence helper lemmas -/

/-- The head of a `dropWhile` result fails the predicate. -/
theorem dropWhile_head_false (p : Char → Bool) :
    ∀ (l : List Char) (a : Char) (t : List Char),
      l.dropWhile p = a :: t → p a = false := by
  intro l
  induction l with
  | nil => intro a t h; simp [List.dropWhile] at h
  | cons c rest ih =>
    intro a t h
    by_cases hc : p c = true
    · exact ih a t (by simpa [List.dropWhile_cons, hc] using h)
    · have hc' : p c = false := by simpa using hc
      rw [List.dropWhile_cons, hc'] at h
      simp at h
      exact h.1 ▸ hc'

/-- `dropWhile` is idempotent. -/
theorem dropWhile_idem (p : Char → Bool) (l : List Char) :
    (l.dropWhile p).dropWhile p = l.dropWhile p := by
  cases h : l.dropWhile p with
  | nil => rfl
  | cons a t =>
    have := dropWhile_head_false p l a t h
    simp [List.dropWhile_cons, this]

/-- Dropping from a list whose last element fails the predicate keeps that
last element. -/
theorem dropWhile_append_last (p : Char → Bool) :
    ∀ (xs : List Char) (a : Char), p a = false →
      ∃ ys, (xs ++ [a]).dropWhile p = ys ++ [a] := by
  intro xs
  induction xs with
  | nil => intro a ha; exact ⟨[], by simp [List.dropWhile_cons, ha]⟩
  | cons x xs ih =>
    intro a ha
    by_cases hx : p x = true
    · obtain ⟨ys, hys⟩ := ih a ha
      exact ⟨ys, by simpa [List.dropWhile_cons, hx] using hys⟩
    · have hx' : p x = false := by simpa using hx
      exact ⟨x :: xs, by simp [List.dropWhile_cons, hx']⟩

/-- JS `trim` is idempotent. -/
theorem trimJS_idem (s : List Char) : trimJS (trimJS s) = trimJS s := by
  unfold trimJS
  cases hu : s.dropWhile jsWhitespace with
  | nil => simp
  | cons a u1 =>
    have hpa : jsWhitespace a = false := dropWhile_head_false _ s a u1 hu
    obtain ⟨ys, hys⟩ := dropWhile_append_last jsWhitespace u1.reverse a hpa
    have hrev : (a :: u1).reverse = u1.reverse ++ [a] := by simp
    rw [hrev, hys]
    have h1 : (ys ++ [a]).reverse = a :: ys.reverse := by simp
    rw [h1]
    rw [show (a :: ys.reverse).dropWhile jsWhitespace = a :: ys.reverse from by
      simp [List.dropWhile_cons, hpa]]
    rw [show (a :: ys.reverse).reverse = ys ++ [a] from by simp]
    rw [← hys, dropWhile_idem, hys]
    simp

/-- Mapping a function that fixes every element of a list is the identity. -/
theorem map_self_of_eq {α : Type} (f : α → α) :
    ∀ (l : List α), (∀ a ∈ l, f a = a) → l.map f = l := by
  intro l
  induction l with
  | nil => intro _; rfl
  | cons x xs ih =>
    intro h
    simp only [List.map_cons]
    rw [h x (by simp), ih fun a ha => h a (List.mem_cons_of_mem _ ha)]

/-- The entry-list step of the lint-config rewrite is idempotent. -/
theorem processIgnoreEntries_idem (items : List (List Char)) :
    processIgnoreEntries (processIgnoreEntries items) =
      processIgnoreEntries items := by
  unfold processIgnoreEntries
  have hmap : (((items.map trimJS).filter keepEntry).map trimJS) =
      (items.map trimJS).filter keepEntry := by
    apply map_self_of_eq
    intro a ha
    have hmem : a ∈ items.map trimJS := List.mem_of_mem_filter ha
    obtain ⟨b, _, hb⟩ := List.mem_map.mp hmem
    rw [← hb]
    exact trimJS_idem b
  rw [hmap, List.filter_filter]
  simp

/-- The dev-dependency deletion is idempotent. -/
theorem removeTsDeps_idem (deps : List (List Char × List Char)) :
    removeTsDeps (removeTsDeps deps) = removeTsDeps deps := by
  unfold removeTsDeps
  rw [List.filter_filter]
  simp


/-- A name ending in `.jsx` does not end in `.js`. -/
theorem endsWith_jsx_not_js (n : List Char) (h : endsWith n jsxExt = true) :
    endsWith n jsExt = false := by
  unfold endsWith at h ⊢
  rw [show jsxExt.reverse = ['x', 's', 'j', '.'] from rfl] at h
  rw [show jsExt.reverse = ['s', 'j', '.'] from rfl]
  cases hm : n.reverse with
  | nil => rw [hm] at h; simp [isPre] at h
  | cons a m =>
    rw [hm] at h
    have ha : a = 'x' := by
      simp only [isPre, Bool.and_eq_true, beq_iff_eq] at h
      exact h.1.symm
    subst ha
    simp +decide [isPre]

/-- A name ending in `.js` has at least three characters. -/
theorem endsWith_js_length (n : List Char) (h : endsWith n jsExt = true) :
    3 ≤ n.length := by
  unfold endsWith at h
  rw [show jsExt.reverse = ['s', 'j', '.'] from rfl] at h
  have : 3 ≤ n.reverse.length := by
    cases hm : n.reverse with
    | nil => rw [hm] at h; simp [isPre] at h
    | cons a m1 =>
      cases m1 with
      | nil => rw [hm] at h; simp [isPre] at h
      | cons b m2 =>
        cases m2 with
        | nil => rw [hm] at h; simp [isPre] at h
        | cons c m3 => simp
  simpa using this

/-- Renaming a `.js` file changes its name (the new name is one character
longer). -/
theorem renameJsToJsx_ne (n : List Char) (h : endsWith n jsExt = true) :
    renameJsToJsx n ≠ n := by
  intro heq
  have hlen := congrArg List.length heq
  have h3 := endsWith_js_length n h
  simp [renameJsToJsx, h, List.length_take, List.length_append,
    show jsxExt.length = 4 from rfl] at hlen
  omega

/-- Claim C1 (amended): a scanned file is renamed from `.js` to `.jsx` if
and only if its name ends in `.js` and its contents contain the code's
markup heuristic — a `<`, a word character, then a single character that is
whitespace, `>`, or `/`. A `.js` file with no match and every file already
ending in `.jsx` is left untouched, and no file's contents are rewritten. -/
theorem c1_extension_classifier (files : List (List Char × List Char))
    (nm ct : List Char) (hmem : (nm, ct) ∈ files) :
    processJsFile (nm, ct) ∈ processJavaScriptFiles files ∧
    (processJsFile (nm, ct)).2 = ct ∧
    ((processJsFile (nm, ct)).1 ≠ nm ↔
      (endsWith nm jsExt && looksLikeMarkup ct) = true) ∧
    ((endsWith nm jsExt && looksLikeMarkup ct) = true →
      (processJsFile (nm, ct)).1 = renameJsToJsx nm) ∧
    ((endsWith nm jsExt && looksLikeMarkup ct) = false →
      processJsFile (nm, ct) = (nm, ct)) ∧
    (endsWith nm jsxExt = true → processJsFile (nm, ct) = (nm, ct)) := by
  refine ⟨List.mem_map_of_mem _ hmem, ?_, ?_, ?_, ?_, ?_⟩
  · unfold processJsFile
    split <;> rfl
  · cases hcond : (endsWith nm jsExt && looksLikeMarkup ct) with
    | true =>
      simp only [processJsFile, hcond, if_true]
      have hjs : endsWith nm jsExt = true := ((Bool.and_eq_true _ _).mp hcond).1
      simpa using renameJsToJsx_ne nm hjs
    | false => simp [processJsFile, hcond]
  · intro hcond
    simp [processJsFile, hcond]
  · intro hcond
    simp [processJsFile, hcond]
  · intro hjsx
    have hjs : endsWith nm jsExt = false := endsWith_jsx_not_js nm hjsx
    simp [processJsFile, hjs]

/-- Claim C1, counterexample to the original wording: the file `a.js` with
contents `<a>` is renamed by the classifier, although its contents do not
contain the claim's pattern (`<`, word character, then whitespace or `/>`):
the `>` after the word character is neither whitespace nor `/>`. -/
theorem c1_counterexample :
    processJavaScriptFiles [(c1CxName, c1CxContent)] =
      [(c1CxRenamed, c1CxContent)] ∧
    endsWith c1CxName jsExt = true ∧
    looksLikeMarkup c1CxContent = true ∧
    specMarkup c1CxContent = false := by decide

/-- Claim C1, witness: the amended theorem applied to a one-file list. -/
theorem c1_witness :
    processJsFile (c1wName, c1wContent) ∈
      processJavaScriptFiles [(c1wName, c1wContent)] ∧
    (processJsFile (c1wName, c1wContent)).2 = c1wContent ∧
    (processJsFile (c1wName, c1wContent)).1 = renameJsToJsx c1wName := by
  have h := c1_extension_classifier [(c1wName, c1wContent)] c1wName c1wContent
    (by simp)
  exact ⟨h.1, h.2.1, h.2.2.2.1 (by decide)⟩

/-- Claim C2 (confirmed): the compiler invoker fails exactly when both
invocations exit non-zero and the output directory is empty after each
failure; any zero exit or any non-empty output directory after a failure
yields success; at most two invocations are performed. -/
theorem c2_compiler_invoker (e : CompEnv) :
    ((convertTypeScriptFiles e).1 = false ↔
      (e.firstExitOk = false ∧ e.outputNonEmptyAfterFirst = false ∧
        e.retryExitOk = false ∧ e.outputNonEmptyAfterRetry = false)) ∧
    (convertTypeScriptFiles e).1 =
      (e.firstExitOk || e.outputNonEmptyAfterFirst || e.retryExitOk ||
        e.outputNonEmptyAfterRetry) ∧
    (convertTypeScriptFiles e).2 ≤ 2 := by
  rcases e with ⟨a, b, c, d⟩
  cases a <;> cases b <;> cases c <;> cases d <;> decide

/-- Claim C2, witness: the soft-success environment (first invocation fails
but output exists) at a concrete input. -/
theorem c2_compiler_invoker_witness :
    (convertTypeScriptFiles softCompEnv).1 = true ∧
    (convertTypeScriptFiles softCompEnv).2 ≤ 2 := by
  have h := c2_compiler_invoker softCompEnv
  exact ⟨h.2.1.trans (by decide), h.2.2⟩

/-- Claim C9 (confirmed): the self-test exits 0 exactly when every
performed check returns true, and exits 1 exactly when one of them does
not (the workflow-components check returns true unconditionally in the
source, so it can never be the failing one). -/
theorem c9_selftest_exit_code (e : TesterEnv) :
    ((testerRun e).exitCode = 0 ∨ (testerRun e).exitCode = 1) ∧
    ((testerRun e).exitCode = 0 ↔
      (checkPrerequisites e = true ∧ checkProjectStructure e = true ∧
        testConversion e = true ∧ testWorkflowComponents e = true)) ∧
    ((testerRun e).exitCode = 1 ↔
      ¬(checkPrerequisites e = true ∧ checkProjectStructure e = true ∧
        testConversion e = true ∧ testWorkflowComponents e = true)) := by
  unfold testerRun
  cases hA : checkPrerequisites e <;> cases hB : checkProjectStructure e <;>
    cases hC : testConversion e <;>
      simp [hA, hB, hC, testWorkflowComponents]

/-- Claim C9, witness: a passing environment exits 0 and a failing one
exits 1. -/
theorem c9_selftest_exit_code_witness :
    (testerRun tEnvPass).exitCode = 0 ∧ (testerRun tEnvFail).exitCode = 1 :=
  ⟨(c9_selftest_exit_code tEnvPass).2.1.mpr (by decide),
   (c9_selftest_exit_code tEnvFail).2.2.mpr (by decide)⟩

/-- Claim C10 (confirmed): on every self-test run the report is written
before exiting and its contents are the constant report: status
`completed` and all four summary fields `passed`, independent of any check
outcome. -/
theorem c10_report_constant (e : TesterEnv) :
    (testerRun e).reportWritten = true ∧
    (testerRun e).report = generateReport ∧
    (testerRun e).report.status = completedWord ∧
    (testerRun e).report.prereqSummary = passedWord ∧
    (testerRun e).report.structureSummary = passedWord ∧
    (testerRun e).report.conversionSummary = passedWord ∧
    (testerRun e).report.componentsSummary = passedWord :=
  ⟨rfl, rfl, rfl, rfl, rfl, rfl, rfl⟩

/-- Claim C10, witness: the report of a failing run is still the constant
report. -/
theorem c10_report_constant_witness :
    (testerRun tEnvFail).reportWritten = true ∧
    (testerRun tEnvFail).report.status = completedWord ∧
    (testerRun tEnvFail).report.conversionSummary = passedWord :=
  ⟨(c10_report_constant tEnvFail).1, (c10_report_constant tEnvFail).2.2.1,
   (c10_report_constant tEnvFail).2.2.2.2.2.1⟩


/-- Claim C5 (confirmed): after the reference rewrite, the contents of the
two known entry files contain zero occurrences of `.tsx` — each literal
occurrence was replaced by `.jsx` and the replacement cannot create a new
occurrence. -/
theorem c5_reference_rewrite (files : List (List Char × List Char))
    (nm ct : List Char) (hmem : (nm, ct) ∈ updateFileReferences files)
    (hname : nm = entryAppName ∨ nm = entrySsrName) :
    containsSub tsxPat ct = false := by
  obtain ⟨f0, hf0, heq⟩ := List.mem_map.mp hmem
  by_cases hc : f0.1 = entryAppName ∨ f0.1 = entrySsrName
  · rw [if_pos hc] at heq
    have hct : ct = updateEntryContent f0.2 := by
      have := congrArg Prod.snd heq
      simpa using this.symm
    rw [hct]
    exact updateEntryContent_noTsx f0.2
  · rw [if_neg hc] at heq
    exfalso
    apply hc
    rw [show f0.1 = nm from by rw [heq]]
    exact hname

/-- Claim C5, witness: the rewrite of a concrete client entry file. -/
theorem c5_reference_rewrite_witness :
    containsSub tsxPat (updateEntryContent c5ExContent) = false :=
  c5_reference_rewrite [(entryAppName, c5ExContent)] entryAppName
    (updateEntryContent c5ExContent) (by decide) (Or.inl rfl)

/-- Claim C6 (confirmed): on the upstream package name the rewrite
produces the JSX template name; all four type-related dev dependencies are
absent afterwards whether or not they were present, and every other
dev-dependency entry resolves exactly as before. -/
theorem c6_package_rewrite (p : PackageJson) (k : List Char)
    (hname : p.name = some vendorOldName) :
    (updatePackageJson p).name = some vendorNewName ∧
    (k ∈ tsDepKeys → devLookup (updatePackageJson p) k = none) ∧
    (k ∉ tsDepKeys → devLookup (updatePackageJson p) k = devLookup p k) := by
  refine ⟨?_, ?_, ?_⟩
  · simp only [updatePackageJson]
    rw [hname]
    decide
  · intro hk
    simp only [updatePackageJson, devLookup]
    cases hd : p.devDependencies with
    | none => rfl
    | some deps => exact lookupA_removeTsDeps_mem k hk deps
  · intro hk
    simp only [updatePackageJson, devLookup]
    cases hd : p.devDependencies with
    | none => rfl
    | some deps => exact lookupA_removeTsDeps_not_mem k hk deps

/-- Claim C6, witness: the rewrite at a concrete package with one deleted
and one kept dev dependency. -/
theorem c6_package_rewrite_witness :
    (updatePackageJson c6ExPkg).name = some vendorNewName ∧
    devLookup (updatePackageJson c6ExPkg) typescriptKey = none ∧
    devLookup (updatePackageJson c6ExPkg) reactKey = devLookup c6ExPkg reactKey := by
  have h1 := c6_package_rewrite c6ExPkg typescriptKey rfl
  have h2 := c6_package_rewrite c6ExPkg reactKey rfl
  exact ⟨h1.1, h1.2.1 (by decide), h2.2.2 (by decide)⟩

/-- Claim C7 (amended): on content with an `ignores` array literal, the
rewrite keeps exactly the trimmed entries that are non-empty and contain
none of the four quoted output forms (`'output'`, `"output"`, `'output/`,
`"output/`), in their original relative order; entries that merely contain
the text `output` elsewhere are kept. -/
theorem c7_lint_config_rewrite (content pre cap post entry : List Char)
    (hfind : findIgnores content = some (pre, cap, post)) :
    updateEslintContent content =
      pre ++ ignoresOpen ++ joinCS (processIgnoreItems cap) ++ ']' :: post ∧
    List.Sublist (processIgnoreItems cap) ((splitCh ',' cap).map trimJS) ∧
    (entry ∈ processIgnoreItems cap ↔
      entry ∈ (splitCh ',' cap).map trimJS ∧ keepEntry entry = true) := by
  refine ⟨?_, ?_, ?_⟩
  · unfold updateEslintContent
    rw [hfind]
  · unfold processIgnoreItems processIgnoreEntries
    exact List.filter_sublist _
  · unfold processIgnoreItems processIgnoreEntries
    simp [List.mem_filter]

/-- Claim C7, counterexample to the original wording: the entry
`'pre-output'` textually contains the staging output directory name
`output`, yet the rewrite keeps it (only the exactly quoted entry
`'output'` is removed), so the rewrite does not remove every entry that
textually references the output directory name. -/
theorem c7_counterexample :
    updateEslintContent c7CxContent = c7CxExpected ∧
    referencesOutputName preOutputEntry = true ∧
    containsSub preOutputEntry c7CxExpected = true := by decide

/-- Claim C7, witness: the amended theorem at a concrete lint config. -/
theorem c7_lint_config_rewrite_witness :
    findIgnores c7wContent = some ([], c7wCap, []) ∧
    (updateEslintContent c7wContent =
      [] ++ ignoresOpen ++ joinCS (processIgnoreItems c7wCap) ++ ']' :: [] ∧
    List.Sublist (processIgnoreItems c7wCap) ((splitCh ',' c7wCap).map trimJS) ∧
    (c7wEntry ∈ processIgnoreItems c7wCap ↔
      c7wEntry ∈ (splitCh ',' c7wCap).map trimJS ∧ keepEntry c7wEntry = true)) :=
  ⟨by decide,
   c7_lint_config_rewrite c7wContent [] c7wCap [] c7wEntry (by decide)⟩

/-- Claim C8 (amended): the dev-dependency deletion and the entry-level
lint-config filtering are idempotent, but not every config rewrite is: the
package-metadata rewrite uses first-occurrence replacement, so a second
application rewrites an occurrence the first left when the name contains
the replaced substring twice. -/
theorem c8_rewrite_idempotence :
    (∀ deps, removeTsDeps (removeTsDeps deps) = removeTsDeps deps) ∧
    (∀ items, processIgnoreEntries (processIgnoreEntries items) =
      processIgnoreEntries items) ∧
    updatePackageJson (updatePackageJson pkgTwice) ≠ updatePackageJson pkgTwice :=
  ⟨removeTsDeps_idem, processIgnoreEntries_idem, by decide⟩

/-- Claim C8, counterexample to the original wording: applying the
package-metadata rewrite twice to a package whose name holds two
occurrences of `react-starter-kit` does not equal applying it once. -/
theorem c8_counterexample :
    updatePackageJson (updatePackageJson pkgTwice) ≠ updatePackageJson pkgTwice := by
  decide

/-- Claim C8, witness: idempotence of the dev-dependency deletion at a
concrete dependency map. -/
theorem c8_rewrite_idempotence_witness :
    removeTsDeps (removeTsDeps c8wDeps) = removeTsDeps c8wDeps :=
  c8_rewrite_idempotence.1 c8wDeps


/-- Claim C3 (amended): when the compiler produces no output even after the
retry, the run halts at the compiler gate — no downstream rewriting stage
executes — and the staging tree at halt is exactly the initial project copy
with the lint-config ignores rewrite applied (the one mutation performed
before compilation); nothing else was renamed, rewritten or deleted. -/
theorem c3_total_failure_halt (e : RunEnv)
    (hdeps : e.depsOk = true) (hsrc : e.sourceDirExists = true)
    (hfail : (convertTypeScriptFiles e.comp).1 = false) :
    runModel e =
      ⟨haltTrace, updateOutputEslintConfig (copyProjectStructure e.project)⟩ ∧
    Stage.classify ∉ (runModel e).trace ∧
    Stage.refs ∉ (runModel e).trace ∧
    Stage.replaceResources ∉ (runModel e).trace ∧
    Stage.vite ∉ (runModel e).trace ∧
    Stage.blade ∉ (runModel e).trace ∧
    Stage.pkgRewrite ∉ (runModel e).trace := by
  have h1 : runModel e =
      ⟨haltTrace, updateOutputEslintConfig (copyProjectStructure e.project)⟩ := by
    unfold runModel
    simp [hdeps, hsrc, hfail, setupStage]
  have h2 : (runModel e).trace = haltTrace := by rw [h1]
  refine ⟨h1, ?_, ?_, ?_, ?_, ?_, ?_⟩ <;> rw [h2] <;> decide

/-- Claim C3, counterexample to the original wording: a validated run with
compiler total failure halts with a staging tree that is not the initial
project copy — the lint-config contents were rewritten before the compiler
ran. -/
theorem c3_counterexample :
    (runModel runEnvHalt).trace = haltTrace ∧
    (runModel runEnvHalt).staging ≠ copyProjectStructure runEnvHalt.project ∧
    (runModel runEnvHalt).staging =
      [(eslintPath, FC.txt haltMutatedEslint), (haltSrcPath, FC.txt haltSrcContent)] := by
  decide

/-- Claim C3, witness: the amended theorem at the concrete halt
environment. -/
theorem c3_total_failure_halt_witness :
    runEnvHalt.depsOk = true ∧ runEnvHalt.sourceDirExists = true ∧
    (convertTypeScriptFiles runEnvHalt.comp).1 = false ∧
    runModel runEnvHalt =
      ⟨haltTrace, updateOutputEslintConfig (copyProjectStructure runEnvHalt.project)⟩ :=
  ⟨rfl, rfl, by decide, (c3_total_failure_halt runEnvHalt rfl rfl (by decide)).1⟩

/-- Claim C4 (confirmed): on every run that reaches the copy phase, the
staging directory is emptied before any file is copied into it, and the
run's result does not depend on whatever staging tree a prior (possibly
failed) run left behind: nothing from the prior tree is observable unless
rebuilt from the current project. -/
theorem c4_staging_rebuilt (e : RunEnv) (p1 p2 : FTree)
    (hdeps : e.depsOk = true) (hsrc : e.sourceDirExists = true) :
    setupStage p1 = [] ∧
    runModel { e with priorStaging := p1 } =
      runModel { e with priorStaging := p2 } := by
  refine ⟨rfl, ?_⟩
  rcases e with ⟨d, s, pr, proj, em, comp⟩
  simp only [RunEnv.depsOk] at hdeps
  simp only [RunEnv.sourceDirExists] at hsrc
  subst hdeps
  subst hsrc
  rfl

/-- Claim C4, witness: a stale prior staging tree and an empty one yield
the same run result. -/
theorem c4_staging_rebuilt_witness :
    setupStage c4Stale = [] ∧
    runModel { runEnvHalt with priorStaging := c4Stale } =
      runModel { runEnvHalt with priorStaging := [] } :=
  c4_staging_rebuilt runEnvHalt c4Stale [] rfl rfl
